import Mathlib

/-
Formal model of the malai capabilities manager
(src/framework/capabilities_manager.py): the skill registry, the recipe
loader/validator, the capability introspector and the recipe interpreter.
Python dictionaries are modelled as association lists with
insertion-ordered overwrite semantics; Python/YAML values are modelled by
the inductive type `Value`; fallible Python code (KeyError, TypeError,
IndexError, StopIteration) is modelled with `Except ExecError`.
-/

/-- A Python/YAML value: strings, integers, booleans, None, lists and
string-keyed dictionaries (dictionaries as insertion-ordered association
lists). -/
inductive Value where
  | str : String → Value
  | int : Int → Value
  | bool : Bool → Value
  | pnone : Value
  | list : List Value → Value
  | dict : List (String × Value) → Value

/-- Lookup in a Python dict modelled as an association list (first match;
keys are unique under `insertA`). -/
def lookupA {α : Type} : List (String × α) → String → Option α
  | [], _ => none
  | (k, v) :: rest, key => if k = key then some v else lookupA rest key

/-- Python dict assignment `d[key] = v`: overwrite in place when the key is
present, otherwise append (insertion order preserved). -/
def insertA {α : Type} : List (String × α) → String → α → List (String × α)
  | [], key, v => [(key, v)]
  | (k, w) :: rest, key, v =>
      if k = key then (k, v) :: rest else (k, w) :: insertA rest key v

mutual

/-- Python `repr` of a value (as produced for elements of containers by
`str`). -/
def pyRepr : Value → String
  | .str s => "'" ++ s ++ "'"
  | .int n => toString n
  | .bool b => if b then "True" else "False"
  | .pnone => "None"
  | .list vs => "[" ++ pyReprList vs ++ "]"
  | .dict es => "\x7b" ++ pyReprDict es ++ "\x7d"

/-- Comma-separated reprs of list elements. -/
def pyReprList : List Value → String
  | [] => ""
  | [v] => pyRepr v
  | v :: vs => pyRepr v ++ ", " ++ pyReprList vs

/-- Comma-separated `'key': value` reprs of dict entries. -/
def pyReprDict : List (String × Value) → String
  | [] => ""
  | [(k, v)] => "'" ++ k ++ "': " ++ pyRepr v
  | (k, v) :: es => "'" ++ k ++ "': " ++ pyRepr v ++ ", " ++ pyReprDict es

end

/-- Python `str` of a value: a string is rendered as itself, every other
value by its repr (the interpreter applies this in `replace_var`, line 335
of capabilities_manager.py: `return str(value)`). -/
def pyStr : Value → String
  | .str s => s
  | v => pyRepr v

/-- Python `s.strip("$")`: drop every leading and trailing `$` character
(used at lines 294 and 327 of capabilities_manager.py). -/
def stripDollars (s : String) : String :=
  String.mk (((s.toList.dropWhile (· = '$')).reverse.dropWhile (· = '$')).reverse)

/-- Errors raised by the manager at load or execution time, each modelling
a concrete Python exception site in capabilities_manager.py. -/
inductive ExecError where
  /-- KeyError on `self.recipes[recipe_name]` (line 260). -/
  | recipeNotFound : String → ExecError
  /-- KeyError on `self.skills[step["skill"]]` (line 281). -/
  | skillNotFound : String → ExecError
  /-- The explicit `KeyError("Required variable '...' not found in recipe
  context")` raised at line 319. -/
  | requiredVarMissing : String → ExecError
  /-- KeyError on `value[key]` during dotted-path traversal (line 333). -/
  | lookupKeyMissing : String → ExecError
  /-- TypeError on `value[key]` when the current value is not a dict
  (line 333). -/
  | notIndexable : String → ExecError
  /-- KeyError on `context[step["input"]]` for a single (non-mapping)
  input (line 357). -/
  | contextKeyMissing : String → ExecError
  /-- IndexError on `recipe["flow"][-1]` when the flow is empty
  (line 380). -/
  | emptyFlow : ExecError
  /-- StopIteration on `next(iter(...))` when the run signature has no
  parameters (line 350). -/
  | noRunParams : ExecError
  /-- KeyError on the final `context[...]` lookup (line 380). -/
  | outputKeyMissing : String → ExecError
deriving Repr, DecidableEq

/-- One indexing step `value[key]` of the dotted-path walk in
`replace_var` (line 333): a dict lookup; a missing key is a KeyError and a
non-dict value a TypeError. -/
def indexValue : Value → String → Except ExecError Value
  | .dict es, key =>
      match lookupA es key with
      | some v => .ok v
      | none => .error (.lookupKeyMissing key)
  | _, key => .error (.notIndexable key)

/-- The loop `for key in var_path.split("."): value = value[key]` of
`replace_var` (lines 331-334), starting from a given value. -/
def walkSteps : Value → List String → Except ExecError Value
  | v, [] => .ok v
  | v, k :: ks =>
      match indexValue v k with
      | .ok v2 => walkSteps v2 ks
      | .error e => .error e

/-- The dotted-path walk of `replace_var` starting at the execution
context (`value = context`, line 328). -/
def walkPath (ctx : List (String × Value)) (keys : List String) :
    Except ExecError Value :=
  walkSteps (.dict ctx) keys

/-- Python `s.split(sep)` for a one-character separator, on the character
list: split at every occurrence, keeping empty segments
(`"".split(".") == [""]`, `"a..b".split(".") == ["a", "", "b"]`). -/
def splitOnChar (sep : Char) : List Char → List (List Char)
  | [] => [[]]
  | c :: cs =>
      if c = sep then [] :: splitOnChar sep cs
      else
        match splitOnChar sep cs with
        | w :: ws => (c :: w) :: ws
        | [] => [[c]]

/-- Python `var_path.split(".")` (line 331). -/
def pySplitDot (s : String) : List String :=
  (splitOnChar '.' s.toList).map String.mk

/-- Split a character list at its first `}` : returns the characters
before it and the characters after it, or `none` when no `}` occurs.
This is how the regex fragment `[^\x7d]+` followed by `\x7d` consumes
input in `re.sub(r"\x7b(\$[^\x7d]+)\x7d", ...)` (line 337-339). -/
def splitAtBrace : List Char → Option (List Char × List Char)
  | [] => none
  | c :: cs =>
      if c = '\x7d' then some ([], cs)
      else
        match splitAtBrace cs with
        | some (sp, after) => some (c :: sp, after)
        | none => none

theorem splitAtBrace_length {l sp after} (h : splitAtBrace l = some (sp, after)) :
    after.length < l.length := by
  induction l generalizing sp after with
  | nil => simp [splitAtBrace] at h
  | cons c cs ih =>
    simp only [splitAtBrace] at h
    split at h
    · cases h
      simp
    · cases hsp : splitAtBrace cs with
      | none => rw [hsp] at h; cases h
      | some p =>
        obtain ⟨sp2, after2⟩ := p
        rw [hsp] at h
        cases h
        have := ih hsp
        simp
        omega

/-- Left-to-right, non-overlapping substitution of the regex
`r"\x7b(\$[^\x7d]+)\x7d"` over a character list, replacing each match by the
Python `str` of the value reached by walking the `$`-stripped,
dot-separated group through the context — the embedding of
`re.sub(r"\x7b(\$[^\x7d]+)\x7d", replace_var, v)` at lines 326-339. A missing
key or a non-indexable intermediate value propagates the exception. -/
def substChars (ctx : List (String × Value)) : List Char → Except ExecError (List Char)
  | [] => .ok []
  | '\x7b' :: '$' :: rest =>
      match hb : splitAtBrace rest with
      | some (sp, after) =>
        if sp.isEmpty then
          match substChars ctx ('$' :: rest) with
          | .ok tail => .ok ('\x7b' :: tail)
          | .error e => .error e
        else
          match walkPath ctx (pySplitDot (stripDollars (String.mk ('$' :: sp)))) with
          | .error e => .error e
          | .ok v =>
            match substChars ctx after with
            | .ok tail => .ok ((pyStr v).toList ++ tail)
            | .error e => .error e
      | none =>
        match substChars ctx ('$' :: rest) with
        | .ok tail => .ok ('\x7b' :: tail)
        | .error e => .error e
  | c :: rest =>
      match substChars ctx rest with
      | .ok tail => .ok (c :: tail)
      | .error e => .error e
termination_by l => l.length
decreasing_by
  all_goals simp_wf
  all_goals first
    | omega
    | (have hlen := splitAtBrace_length hb; omega)

/-- String-level wrapper of `substChars`. -/
def substTemplates (ctx : List (String × Value)) (s : String) :
    Except ExecError String :=
  match substChars ctx s.toList with
  | .ok cs => .ok (String.mk cs)
  | .error e => .error e

/-- ASCII `[A-Z]`. -/
def isUpperAZ (c : Char) : Bool := 'A' ≤ c && c ≤ 'Z'

/-- ASCII `[a-z]`. -/
def isLowerAZ (c : Char) : Bool := 'a' ≤ c && c ≤ 'z'

/-- ASCII `[a-z0-9]`. -/
def isLowerOrDigit (c : Char) : Bool := isLowerAZ c || ('0' ≤ c && c ≤ '9')

/-- Longest prefix of ASCII lowercase letters together with the remaining
characters (the greedy `[a-z]+` of the first camel-case regex). -/
def takeLowerRun : List Char → List Char × List Char
  | [] => ([], [])
  | c :: cs =>
      if isLowerAZ c then
        let (run, after) := takeLowerRun cs
        (c :: run, after)
      else ([], c :: cs)

theorem takeLowerRun_length (l : List Char) :
    (takeLowerRun l).2.length ≤ l.length := by
  induction l with
  | nil => simp [takeLowerRun]
  | cons c cs ih =>
    simp only [takeLowerRun]
    split
    · simpa using Nat.le_trans ih (Nat.le_succ _)
    · simp

/-- The first substitution of `camel_to_snake` (line 149):
`re.sub("(.)([A-Z][a-z]+)", r"\1_\2", name)` scanned left to right,
non-overlapping, with greedy `[a-z]+`. -/
def camelSub1 : List Char → List Char
  | [] => []
  | [c1] => [c1]
  | c1 :: c2 :: rest2 =>
      if isUpperAZ c2 then
        let p := takeLowerRun rest2
        if p.1.isEmpty then c1 :: camelSub1 (c2 :: rest2)
        else c1 :: '_' :: c2 :: (p.1 ++ camelSub1 p.2)
      else c1 :: camelSub1 (c2 :: rest2)
termination_by l => l.length
decreasing_by
  all_goals simp_wf
  all_goals first
    | omega
    | (have h2 := takeLowerRun_length rest2; omega)

/-- The second substitution of `camel_to_snake` (line 150):
`re.sub("([a-z0-9])([A-Z])", r"\1_\2", name)`, left to right,
non-overlapping. -/
def camelSub2 : List Char → List Char
  | [] => []
  | [c] => [c]
  | c1 :: c2 :: rest =>
      if isLowerOrDigit c1 && isUpperAZ c2 then
        c1 :: '_' :: c2 :: camelSub2 rest
      else c1 :: camelSub2 (c2 :: rest)

/-- Embedding of `camel_to_snake` (lines 148-150): the two regex substitutions followed
by `.lower()`. -/
def camelToSnake (name : String) : String :=
  String.mk ((camelSub2 (camelSub1 name.toList)).map Char.toLower)

/-- ASCII alphabetic. -/
def isAsciiAlpha (c : Char) : Bool := isUpperAZ c || isLowerAZ c

/-- Worker for Python `str.title()`: uppercase an alphabetic character that
follows a non-alphabetic one, lowercase the rest of each alphabetic run.
The flag records whether the previous character was alphabetic. -/
def titleChars : Bool → List Char → List Char
  | _, [] => []
  | prevAlpha, c :: cs =>
      if isAsciiAlpha c then
        (if prevAlpha then c.toLower else c.toUpper) :: titleChars true cs
      else c :: titleChars false cs

/-- Python `str.title()` restricted to ASCII (class names are ASCII). -/
def pyTitle (s : String) : String := String.mk (titleChars false s.toList)

/-- Class-name derivation of `load_skills` (lines 166-168):
`"".join(word.title() for word in skill_file.stem.split("_"))`. -/
def deriveClassName (stem : String) : String :=
  String.join (((splitOnChar '_' stem.toList).map String.mk).map pyTitle)

/-- Python `stem.startswith("__")` (line 160): the first two characters
are underscores. -/
def startsWithUnderscores (s : String) : Bool :=
  match s.data with
  | '_' :: '_' :: _ => true
  | _ => false

/-- One parameter of a skill's `run` method as Python's `inspect` reports
it: its name, its type hint rendered by `str` when present, and its
default value rendered by `str` when present (`param.default` is not
`param.empty`). -/
structure RunParam where
  name : String
  hint : Option String
  default : Option String

/-- A loaded skill instance. `runParams` is the parameter list of the
`run` method as written in its `def`, the implicit receiver first;
`returnHint` models `get_type_hints(run).get("return")` rendered by `str`;
`run` is the semantic action of the method; `hiddenCapability` models the
attribute of the same name read at line 32; `doc` and `runDoc` model the
class and method docstrings with the code's `or ""` default applied. -/
structure Skill where
  doc : String
  runDoc : String
  hiddenCapability : Bool
  runParams : List RunParam
  returnHint : Option String
  run : List (String × Value) → Value

/-- Python's `inspect.signature` on the *bound* method `skill_instance.run`
omits the implicit receiver, which is the first parameter of the `def`. -/
def boundParams (sk : Skill) : List RunParam := sk.runParams.drop 1

/-- One declared recipe parameter: `{name, aliases?, optional?}`. An
absent `aliases` key is modelled as the empty list (the loop over it is
then a no-op, observably identical); an absent or false `optional` key is
`false` (`param.get("optional", False)`, line 300). -/
structure ParamDecl where
  name : String
  aliases : List String
  optional : Bool

/-- A step's input specification: either a mapping from skill-parameter
names to value expressions, or a single non-mapping expression (used
verbatim as a context key at line 357). -/
inductive StepInput where
  | mapping : List (String × Value) → StepInput
  | single : String → StepInput

/-- One flow step: skill identifier, input specification, output key, and
the `output_type` annotation that `execute_recipe` writes into the step
dict at line 366 (`none` models the key being absent). -/
structure Step where
  skill : String
  input : StepInput
  output : String
  outputType : Option String

/-- A parsed recipe definition. `method` and `description` are `Option`s
because the code reads them with `recipe.get(..., default)`;
`requiredSkills` models `recipe.get("required_skills", [])`; `parameters`
is an `Option` because the code distinguishes `"parameters" in recipe`
(line 264) from an empty list. -/
structure Recipe where
  endpoint : String
  method : Option String
  description : Option String
  requiredSkills : List String
  parameters : Option (List ParamDecl)
  flow : List Step

/-- The manager's two tables: `self.skills` and `self.recipes`. -/
structure OrakleState where
  skills : List (String × Skill)
  recipes : List (String × Recipe)

/-- A candidate plugin file seen by `load_skills` (lines 159-183): its
filename stem and the classes its module exposes. A module whose import
fails is modelled as one exposing no classes — in both cases the code logs
and skips the file (lines 180-183). -/
structure PluginFile where
  stem : String
  attrs : List (String × Skill)

/-- One iteration of the `load_skills` loop (lines 159-183): skip `__`
files, derive the class name from the stem, fetch the class and register
the instance with `self.skills[class_name] = skill_class()` (line 177),
skipping the file on ImportError/AttributeError. -/
def loadSkillFile (skills : List (String × Skill)) (f : PluginFile) :
    List (String × Skill) :=
  if startsWithUnderscores f.stem then skills
  else
    match lookupA f.attrs (deriveClassName f.stem) with
    | some sk => insertA skills (deriveClassName f.stem) sk
    | none => skills

/-- Embedding of `load_skills` (lines 152-183): fold the loop over the plugin files in
glob order, starting from the empty `self.skills` table. -/
def loadSkills (files : List PluginFile) : List (String × Skill) :=
  files.foldl loadSkillFile []

/-- A candidate recipe file seen by `register_recipes_endpoints`
(lines 191-217): its filename and the result of `yaml.safe_load`; `none`
models any exception while opening/parsing the file (or a definition with
no `endpoint` key), which the `except` clause logs before continuing. -/
structure RecipeFile where
  fileName : String
  parsed : Option Recipe

/-- Accumulated outcome of recipe loading: the `self.recipes` table, the
Flask routes registered by `register_route`, and the error log entries
`(file name, missing skills)` written at lines 204-207. -/
structure LoadResult where
  recipes : List (String × Recipe)
  routes : List String
  missingLog : List (String × List String)

/-- One iteration of the `register_recipes_endpoints` loop
(lines 191-217): compute the required skills absent from the registry; if
any, log them and continue without registering; otherwise store the recipe
under its endpoint and register its route (`/recipes` + endpoint,
line 247). -/
def loadRecipeFile (skills : List (String × Skill)) (acc : LoadResult)
    (f : RecipeFile) : LoadResult :=
  match f.parsed with
  | none => acc
  | some recipe =>
    let missing := recipe.requiredSkills.filter (fun s => (lookupA skills s).isNone)
    if missing.isEmpty then
      { acc with
        recipes := insertA acc.recipes recipe.endpoint recipe,
        routes := acc.routes ++ ["/recipes" ++ recipe.endpoint] }
    else
      { acc with missingLog := acc.missingLog ++ [(f.fileName, missing)] }

/-- Embedding of `register_recipes_endpoints` (lines 185-217): fold the loop over the
recipe files in glob order. -/
def loadRecipes (skills : List (String × Skill)) (files : List RecipeFile) :
    LoadResult :=
  files.foldl (loadRecipeFile skills) ⟨[], [], []⟩

/-- Introspected description of one run parameter (lines 60-68):
`str(type_hints.get(param_name, "any"))`, the stringified default or
`None`, and `required` iff no default. -/
structure ParamInfo where
  type : String
  default : Option String
  required : Bool

/-- The `method_info` dict built at lines 45-69. -/
structure MethodInfo where
  description : String
  parameters : List (String × ParamInfo)
  returnType : Option String

/-- The `skill_info` dict built at lines 38-71 (its constant
`"methods": \x7b\x7d` entry carries no data and is omitted). -/
structure SkillInfo where
  description : String
  runInfo : MethodInfo

/-- The `recipe_info` dict built at lines 79-86. -/
structure RecipeInfo where
  endpoint : String
  description : String
  method : String
  requiredSkills : List String
  parameters : List ParamDecl
  flow : List Step

/-- The value returned by `get_capabilities` (lines 23-89). -/
structure Capabilities where
  skills : List (String × SkillInfo)
  recipes : List (String × RecipeInfo)

/-- Lines 58-69: parameter description, applied to each signature
parameter whose name is not `"self"`. -/
def describeRunParam (p : RunParam) : ParamInfo :=
  { type := p.hint.getD "any"
    default := p.default
    required := p.default.isNone }

/-- Lines 43-71: description of the `run` method of a skill, iterating the
bound-method signature and skipping any parameter named `"self"`. -/
def describeSkill (sk : Skill) : SkillInfo :=
  { description := sk.doc
    runInfo :=
      { description := sk.runDoc
        parameters :=
          ((boundParams sk).filter (fun p => p.name ≠ "self")).map
            (fun p => (p.name, describeRunParam p))
        returnType := sk.returnHint } }

/-- Lines 79-86: projection of a recipe's declared metadata. -/
def describeRecipe (endpoint : String) (r : Recipe) : RecipeInfo :=
  { endpoint := endpoint
    description := r.description.getD ""
    method := r.method.getD "POST"
    requiredSkills := r.requiredSkills
    parameters := r.parameters.getD []
    flow := r.flow }

/-- Embedding of `get_capabilities` (lines 23-89): every non-hidden skill keyed by
`camel_to_snake` of its class name, and every recipe keyed by its
endpoint. -/
def getCapabilities (st : OrakleState) : Capabilities :=
  { skills :=
      (st.skills.filter (fun kv => ¬ kv.2.hiddenCapability)).map
        (fun kv => (camelToSnake kv.1, describeSkill kv.2))
    recipes := st.recipes.map (fun kv => (kv.1, describeRecipe kv.1 kv.2)) }

/-- The `param.get("optional", False)` search of lines 297-304: true iff some
declared parameter has this name and a true `optional` flag (the code
breaks at the first such parameter, which is observably the same as
`any`); false when the recipe has no `parameters` key (the loop is
guarded by `if "parameters" in recipe`). -/
def paramIsOptional (recipe : Recipe) (varName : String) : Bool :=
  match recipe.parameters with
  | none => false
  | some decls => decls.any (fun p => p.name == varName && p.optional)

/-- Result of resolving one mapping entry: a value to bind under the key,
or the instruction to omit the key (`continue`, line 309). -/
inductive EntryRes where
  | bind : Value → EntryRes
  | skip : EntryRes

/-- The direct-reference branch of lines 292-323: a bound variable
resolves as-is; an unbound optional parameter is skipped; an unbound
non-optional one raises the required-variable KeyError naming it. -/
def directResolve (recipe : Recipe) (ctx : List (String × Value))
    (varName : String) : Except ExecError EntryRes :=
  match lookupA ctx varName with
  | some v => .ok (.bind v)
  | none =>
      if paramIsOptional recipe varName then .ok .skip
      else .error (.requiredVarMissing varName)

/-- Python `v.startswith("$")` (line 292): true iff the first character of
the string is `$` (phrased via the character list so that it computes by
plain reduction). -/
def startsWithDollar (s : String) : Bool :=
  match s.data with
  | [] => false
  | c :: _ => c == '$'

/-- Resolution of one value of a step's input mapping (lines 289-341): a
string starting with `$` is a direct reference to the `$`-stripped name;
any other string undergoes embedded-template substitution; a non-string
value is taken verbatim. -/
def resolveEntry (recipe : Recipe) (ctx : List (String × Value)) :
    Value → Except ExecError EntryRes
  | .str s =>
      if startsWithDollar s then directResolve recipe ctx (stripDollars s)
      else
        match substTemplates ctx s with
        | .ok s2 => .ok (.bind (.str s2))
        | .error e => .error e
  | v => .ok (.bind v)

/-- The loop `for k, v in step["input"].items()` (lines 288-341), building
`input_params` entry by entry; a skipped entry leaves `input_params`
untouched and an error aborts the whole resolution. -/
def resolveEntries (recipe : Recipe) (ctx : List (String × Value))
    (acc : List (String × Value)) :
    List (String × Value) → Except ExecError (List (String × Value))
  | [] => .ok acc
  | (k, v) :: es =>
      match resolveEntry recipe ctx v with
      | .error e => .error e
      | .ok (.bind w) => resolveEntries recipe ctx (insertA acc k w) es
      | .ok .skip => resolveEntries recipe ctx acc es

/-- Lines 350-356: `param_name = next(iter(inspect.signature(skill.run)
.parameters))` on the bound method, whose signature omits the receiver;
the `if param_name == "self"` branch re-reads the same first entry via
`next(iter(....parameters.items()))[0]`, so it never changes the result.
`none` models StopIteration on an empty signature. -/
def singleParamName (sk : Skill) : Option String :=
  match (boundParams sk).head? with
  | none => none
  | some p =>
      if p.name == "self" then ((boundParams sk).head?).map (fun q => q.name)
      else some p.name

/-- Building a step's `input_params` (lines 286-357): a mapping is
resolved entry by entry; a single expression is used verbatim as a context
key and its value bound under the skill's first bound-signature parameter
name. -/
def buildInput (recipe : Recipe) (ctx : List (String × Value)) (sk : Skill) :
    StepInput → Except ExecError (List (String × Value))
  | .mapping entries => resolveEntries recipe ctx [] entries
  | .single key =>
      match singleParamName sk with
      | none => .error .noRunParams
      | some pname =>
          match lookupA ctx key with
          | none => .error (.contextKeyMissing key)
          | some v => .ok [(pname, v)]

/-- Outcome of the flow loop of `execute_recipe` (lines 278-376): the
loop's completion status, the final execution context, the step list as
left in the recipe object (mutated in place by line 366), and the trace of
skill invocations `(skill name, input_params)` performed, in order. -/
structure FlowResult where
  res : Except ExecError Unit
  ctx : List (String × Value)
  steps : List Step
  invoked : List (String × List (String × Value))

/-- The flow loop of `execute_recipe` (lines 278-376). For each step, in
order: resolve the skill (line 281), build `input_params` (lines 286-357),
write the `output_type` annotation into the step when the skill declares a
return hint (lines 363-366), invoke `skill.run(**input_params)`
(lines 369-373) and store the result under the step's output key
(line 376). An exception aborts the loop, leaving the already-processed
steps annotated and the remaining ones untouched. -/
def runFlow (skills : List (String × Skill)) (recipe : Recipe)
    (ctx : List (String × Value)) : List Step → FlowResult
  | [] => ⟨.ok (), ctx, [], []⟩
  | step :: rest =>
      match lookupA skills step.skill with
      | none => ⟨.error (.skillNotFound step.skill), ctx, step :: rest, []⟩
      | some sk =>
        match buildInput recipe ctx sk step.input with
        | .error e => ⟨.error e, ctx, step :: rest, []⟩
        | .ok inputParams =>
          let step2 :=
            match sk.returnHint with
            | some h => { step with outputType := some h }
            | none => step
          let result := sk.run inputParams
          let ctx2 := insertA ctx step.output result
          let r := runFlow skills recipe ctx2 rest
          ⟨r.res, r.ctx, step2 :: r.steps, (step.skill, inputParams) :: r.invoked⟩

/-- Context seeding for one declared parameter (lines 265-273): bind the
declared name from the payload when present, then rebind it from each
alias present in the payload, in declared order. -/
def seedParam (params : List (String × Value)) (ctx : List (String × Value))
    (p : ParamDecl) : List (String × Value) :=
  let ctx1 :=
    match lookupA params p.name with
    | some v => insertA ctx p.name v
    | none => ctx
  p.aliases.foldl
    (fun c a =>
      match lookupA params a with
      | some v => insertA c p.name v
      | none => c)
    ctx1

/-- Context seeding of `execute_recipe` (lines 262-275): with a
`parameters` key, fold `seedParam` over the declared parameters starting
from the empty context; without one, copy the caller payload verbatim. -/
def seedContext (recipe : Recipe) (params : List (String × Value)) :
    List (String × Value) :=
  match recipe.parameters with
  | some decls => decls.foldl (seedParam params) []
  | none => params

/-- Observable outcome of `execute_recipe` (lines 256-380): the returned
value or raised exception, the manager state after the call (the recipes
table reflects the in-place step mutation of line 366; `self.skills` is
never assigned), the final local `context`, and the invocation trace. -/
structure ExecOutcome where
  result : Except ExecError Value
  finalState : OrakleState
  context : List (String × Value)
  invoked : List (String × List (String × Value))

/-- Embedding of `execute_recipe` (lines 256-380): look up the recipe, seed the
context, run the flow, and return the context entry named by the last flow
step's output key (line 380, IndexError when the flow is empty). -/
def executeRecipe (st : OrakleState) (recipeName : String)
    (params : List (String × Value)) : ExecOutcome :=
  match lookupA st.recipes recipeName with
  | none => ⟨.error (.recipeNotFound recipeName), st, [], []⟩
  | some recipe =>
    let ctx0 := seedContext recipe params
    let fr := runFlow st.skills recipe ctx0 recipe.flow
    let recipe2 := { recipe with flow := fr.steps }
    let st2 : OrakleState := { st with recipes := insertA st.recipes recipeName recipe2 }
    match fr.res with
    | .error e => ⟨.error e, st2, fr.ctx, fr.invoked⟩
    | .ok _ =>
      match recipe2.flow.getLast? with
      | none => ⟨.error .emptyFlow, st2, fr.ctx, fr.invoked⟩
      | some lastStep =>
        match lookupA fr.ctx lastStep.output with
        | some v => ⟨.ok v, st2, fr.ctx, fr.invoked⟩
        | none => ⟨.error (.outputKeyMissing lastStep.output), st2, fr.ctx, fr.invoked⟩

/-- A step with its runtime `output_type` annotation removed. -/
def Step.eraseOut (s : Step) : Step := { s with outputType := none }

/-- A recipe with all step annotations removed. -/
def Recipe.eraseOut (r : Recipe) : Recipe :=
  { r with flow := r.flow.map Step.eraseOut }

/-- A recipes table with all step annotations removed. -/
def eraseOutTable (t : List (String × Recipe)) : List (String × Recipe) :=
  t.map (fun kv => (kv.1, kv.2.eraseOut))

/-! Association-list lemmas. -/

theorem lookupA_insertA_self {α : Type} (l : List (String × α)) (k : String) (v : α) :
    lookupA (insertA l k v) k = some v := by
  induction l with
  | nil => simp [insertA, lookupA]
  | cons kv rest ih =>
    obtain ⟨k0, w0⟩ := kv
    by_cases hk : k0 = k
    · simp [insertA, hk, lookupA]
    · simp [insertA, hk, lookupA, ih]

theorem lookupA_insertA_ne {α : Type} (l : List (String × α)) (k k' : String) (v : α)
    (h : k' ≠ k) : lookupA (insertA l k v) k' = lookupA l k' := by
  induction l with
  | nil => simp [insertA, lookupA, Ne.symm h]
  | cons kv rest ih =>
    obtain ⟨k0, w0⟩ := kv
    by_cases hk : k0 = k
    · subst hk
      simp [insertA, lookupA, Ne.symm h]
    · simp only [insertA, if_neg hk, lookupA]
      by_cases hk' : k0 = k'
      · simp [hk']
      · simp [hk', ih]

theorem insertA_keys {α : Type} (l : List (String × α)) (k : String) (v : α) :
    (insertA l k v).map Prod.fst =
      if (lookupA l k).isSome then l.map Prod.fst else l.map Prod.fst ++ [k] := by
  induction l with
  | nil => simp [insertA, lookupA]
  | cons kv rest ih =>
    obtain ⟨k0, w0⟩ := kv
    by_cases hk : k0 = k
    · simp [insertA, hk, lookupA]
    · simp only [insertA, if_neg hk, lookupA, List.map_cons, ih]
      by_cases hs : (lookupA rest k).isSome
      · simp [hs, hk]
      · simp [hs, hk]

theorem insertA_keys_nodup {α : Type} (l : List (String × α)) (k : String) (v : α)
    (h : (l.map Prod.fst).Nodup) : ((insertA l k v).map Prod.fst).Nodup := by
  rw [insertA_keys]
  by_cases hs : (lookupA l k).isSome
  · simpa [hs]
  · have hnotin : k ∉ l.map Prod.fst := by
      intro hin
      apply hs
      clear hs h
      induction l with
      | nil => simp at hin
      | cons kv rest ih =>
        obtain ⟨k0, w0⟩ := kv
        simp only [List.map_cons, List.mem_cons] at hin
        rcases hin with hin | hin
        · simp [lookupA, hin]
        · by_cases hk : k0 = k
          · simp [lookupA, hk]
          · simpa [lookupA, hk] using ih hin
    simp only [hs, if_false]
    exact List.Nodup.append h (List.nodup_singleton k)
      (by simpa [List.disjoint_singleton] using hnotin)

/-! Concrete fixtures used by witnesses and counterexamples. -/

/-- Demo skill with one value parameter and a declared return hint. -/
def skillOne : Skill :=
  { doc := "first demo skill", runDoc := "", hiddenCapability := false,
    runParams := [⟨"self", none, none⟩, ⟨"text", some "str", none⟩],
    returnHint := some "str",
    run := fun _ => .str "one" }

/-- Demo skill with one value parameter, no return hint, echoing its
parameters. -/
def skillTwo : Skill :=
  { doc := "second demo skill", runDoc := "", hiddenCapability := false,
    runParams := [⟨"self", none, none⟩, ⟨"x", none, none⟩],
    returnHint := none,
    run := fun ps => .list [.str "two", .dict ps] }

/-- First step of the chain demo: writes output key `a`. -/
def chainStepA : Step := ⟨"SkillOne", .mapping [], "a", none⟩

/-- Second step of the chain demo: consumes `$a`, writes output key `b`. -/
def chainStepB : Step := ⟨"SkillTwo", .mapping [("x", .str "$a")], "b", none⟩

/-- Two-step demo recipe. -/
def chainRecipe : Recipe := ⟨"/chain", none, none, [], none, [chainStepA, chainStepB]⟩

/-- Demo manager state holding both demo skills and the chain recipe. -/
def chainState : OrakleState :=
  ⟨[("SkillOne", skillOne), ("SkillTwo", skillTwo)], [("/chain", chainRecipe)]⟩

/-- Step referencing the required, undeclared-in-context variable
`$missing`. -/
def reqStep : Step := ⟨"SkillOne", .mapping [("text", .str "$missing")], "r", none⟩

/-- Recipe declaring `missing` as a non-optional parameter, whose first
step needs it and whose second step would run afterwards. -/
def reqRecipe : Recipe :=
  ⟨"/req", none, none, [], some [⟨"missing", [], false⟩], [reqStep, chainStepB]⟩

/-- Demo state for the required-variable-missing scenario. -/
def reqState : OrakleState :=
  ⟨[("SkillOne", skillOne), ("SkillTwo", skillTwo)], [("/req", reqRecipe)]⟩

/-- Recipe with an empty declared parameter list. -/
def emptyParamsRecipe : Recipe := ⟨"/ep", none, none, [], some [], []⟩

/-- Recipe with no `parameters` key at all. -/
def noParamsRecipe : Recipe := ⟨"/np", none, none, [], none, []⟩

/-- C10: verbatim copying of the caller payload into the execution context
happens only when the recipe has no `parameters` key at all; a `parameters`
key bound to the empty list seeds an empty context and ignores every
caller-supplied value. -/
theorem C10_empty_parameter_list_seeds_empty_context :
    (∀ (recipe : Recipe) (payload : List (String × Value)),
      recipe.parameters = some [] → seedContext recipe payload = []) ∧
    (∀ (recipe : Recipe) (payload : List (String × Value)),
      recipe.parameters = none → seedContext recipe payload = payload) := by
  constructor
  · intro recipe payload h
    simp [seedContext, h]
  · intro recipe payload h
    simp [seedContext, h]

theorem C10_witness :
    seedContext emptyParamsRecipe [("x", Value.int 1)] = [] ∧
    seedContext noParamsRecipe [("x", Value.int 1)] = [("x", Value.int 1)] :=
  ⟨C10_empty_parameter_list_seeds_empty_context.1 emptyParamsRecipe _ rfl,
   C10_empty_parameter_list_seeds_empty_context.2 noParamsRecipe _ rfl⟩

/-- The alias loop of `seedParam` (lines 270-273), folded over any starting
context: the declared name ends up bound to the payload value of the last
alias present in the payload, and is untouched when no alias is present. -/
theorem seedParam_alias_fold (payload : List (String × Value)) (name : String)
    (aliases : List String) (c : List (String × Value)) :
    lookupA
      (aliases.foldl
        (fun c a =>
          match lookupA payload a with
          | some v => insertA c name v
          | none => c)
        c) name =
      match (aliases.filter (fun a => (lookupA payload a).isSome)).getLast? with
      | some a => lookupA payload a
      | none => lookupA c name := by
  induction aliases generalizing c with
  | nil => simp
  | cons a as ih =>
    simp only [List.foldl_cons, List.filter_cons]
    cases hva : lookupA payload a with
    | none =>
      simp only [hva, Option.isSome_none, Bool.false_eq_true, if_false]
      exact ih c
    | some va =>
      simp only [hva, Option.isSome_some, if_true]
      rw [ih (insertA c name va)]
      cases hfil : as.filter (fun x => (lookupA payload x).isSome) with
      | nil => simp [hfil, lookupA_insertA_self, hva]
      | cons y ys =>
        rw [List.getLast?_cons_cons]
        cases hg : (y :: ys).getLast? with
        | none => rw [List.getLast?_eq_none_iff] at hg; cases hg
        | some b => rfl

/-- C9: during context seeding, aliases are processed after the declared
name and in declared order, so when the declared name and at least one
alias are both present in the caller payload, the context binds the
declared name to the value supplied under the last payload-present alias,
not to the value supplied under the declared name itself. -/
theorem C9_last_alias_overrides_declared_name :
    (∀ (payload ctx : List (String × Value)) (p : ParamDecl) (a : String),
      (lookupA payload p.name).isSome →
      (p.aliases.filter (fun x => (lookupA payload x).isSome)).getLast? = some a →
      lookupA (seedParam payload ctx p) p.name = lookupA payload a) ∧
    seedParam [("q", .str "fromName"), ("query", .str "fromAlias")] []
        ⟨"q", ["query"], false⟩ =
      [("q", .str "fromAlias")] := by
  constructor
  · intro payload ctx p a _ hlast
    unfold seedParam
    rw [seedParam_alias_fold payload p.name p.aliases _, hlast]
  · rfl

theorem C9_witness :
    lookupA
        (seedParam [("q", Value.str "fromName"), ("query", Value.str "fromAlias")]
          [] ⟨"q", ["query"], false⟩) "q" =
      lookupA [("q", Value.str "fromName"), ("query", Value.str "fromAlias")] "query" :=
  C9_last_alias_overrides_declared_name.1
    [("q", Value.str "fromName"), ("query", Value.str "fromAlias")] []
    ⟨"q", ["query"], false⟩ "query" rfl rfl

/-- Recipe used to exercise direct-reference resolution with no declared
parameters (so nothing is optional). -/
def plainRecipe : Recipe := ⟨"/plain", none, none, [], none, [chainStepA]⟩

/-- C8: the two substitution forms are mutually exclusive and the direct
reference takes precedence: a string value beginning with `$` is treated
entirely as a direct reference to the name obtained by stripping all
leading and trailing `$` characters, and a `\x7b$path\x7d` template inside
such a string is never expanded; embedded templates are expanded only in
strings that do not begin with `$`. -/
theorem C8_direct_reference_takes_precedence :
    (∀ (recipe : Recipe) (ctx : List (String × Value)) (s : String),
      startsWithDollar s = true →
      resolveEntry recipe ctx (.str s) = directResolve recipe ctx (stripDollars s)) ∧
    (∀ (recipe : Recipe) (ctx : List (String × Value)) (s : String),
      startsWithDollar s = false →
      resolveEntry recipe ctx (.str s) =
        match substTemplates ctx s with
        | .ok s2 => .ok (.bind (.str s2))
        | .error e => .error e) ∧
    resolveEntry plainRecipe [("y", .str "Y")] (.str "$x\x7b$y\x7d") =
      .error (.requiredVarMissing "x\x7b$y\x7d") := by
  refine ⟨?_, ?_, ?_⟩
  · intro recipe ctx s h
    simp [resolveEntry, h]
  · intro recipe ctx s h
    simp [resolveEntry, h]
  · rfl

theorem C8_witness :
    (resolveEntry plainRecipe [("v", Value.int 9)] (.str "$v") =
        directResolve plainRecipe [("v", Value.int 9)] (stripDollars "$v")) ∧
    (resolveEntry plainRecipe [("v", Value.int 9)] (.str "plain") =
        match substTemplates [("v", Value.int 9)] "plain" with
        | .ok s2 => .ok (.bind (.str s2))
        | .error e => .error e) :=
  ⟨C8_direct_reference_takes_precedence.1 plainRecipe _ "$v" rfl,
   C8_direct_reference_takes_precedence.2.1 plainRecipe _ "plain" rfl⟩

/-- Recipe declaring `city` as an optional parameter. -/
def optRecipe : Recipe :=
  ⟨"/opt", none, none, [], some [⟨"city", [], true⟩], [chainStepA]⟩

/-- C2: a direct-reference entry `$name` resolves to `context[name]` with
its type preserved when bound; when unbound and declared optional the key
is omitted entirely from the resolved input; when unbound and not declared
optional, resolution raises the required-variable-missing error naming the
variable, the step's skill and all subsequent steps are never invoked
(empty invocation trace from that step on) and the execution returns the
error, never a partial result. -/
theorem C2_direct_reference_required_and_optional :
    (∀ (recipe : Recipe) (ctx : List (String × Value)) (s : String) (v : Value),
      startsWithDollar s = true →
      lookupA ctx (stripDollars s) = some v →
      resolveEntry recipe ctx (.str s) = .ok (.bind v)) ∧
    (∀ (recipe : Recipe) (ctx : List (String × Value)) (s : String),
      startsWithDollar s = true →
      lookupA ctx (stripDollars s) = none →
      paramIsOptional recipe (stripDollars s) = true →
      ∀ (acc : List (String × Value)) (k : String) (es : List (String × Value)),
        resolveEntries recipe ctx acc ((k, .str s) :: es) =
          resolveEntries recipe ctx acc es) ∧
    (∀ (recipe : Recipe) (ctx : List (String × Value)) (s : String),
      startsWithDollar s = true →
      lookupA ctx (stripDollars s) = none →
      paramIsOptional recipe (stripDollars s) = false →
      resolveEntry recipe ctx (.str s) =
        .error (.requiredVarMissing (stripDollars s))) ∧
    (∀ (skills : List (String × Skill)) (recipe : Recipe)
      (ctx : List (String × Value)) (step : Step) (rest : List Step)
      (sk : Skill) (e : ExecError),
      lookupA skills step.skill = some sk →
      buildInput recipe ctx sk step.input = .error e →
      runFlow skills recipe ctx (step :: rest) = ⟨.error e, ctx, step :: rest, []⟩) ∧
    (executeRecipe reqState "/req" []).result =
        .error (.requiredVarMissing "missing") ∧
    (executeRecipe reqState "/req" []).invoked = [] := by
  refine ⟨?_, ?_, ?_, ?_, ?_, ?_⟩
  · intro recipe ctx s v h1 h2
    simp [resolveEntry, h1, directResolve, h2]
  · intro recipe ctx s h1 h2 h3 acc k es
    simp [resolveEntries, resolveEntry, h1, directResolve, h2, h3]
  · intro recipe ctx s h1 h2 h3
    simp [resolveEntry, h1, directResolve, h2, h3]
  · intro skills recipe ctx step rest sk e h1 h2
    simp [runFlow, h1, h2]
  · rfl
  · rfl

theorem C2_witness :
    (resolveEntry plainRecipe [("city", Value.str "X")] (.str "$city") =
        .ok (.bind (Value.str "X"))) ∧
    (resolveEntries optRecipe [] [] [("text", Value.str "$city")] =
        resolveEntries optRecipe [] [] []) ∧
    (resolveEntry reqRecipe [] (.str "$missing") =
        .error (.requiredVarMissing "missing")) ∧
    runFlow reqState.skills reqRecipe [] [reqStep, chainStepB] =
      ⟨.error (.requiredVarMissing "missing"), [], [reqStep, chainStepB], []⟩ :=
  ⟨C2_direct_reference_required_and_optional.1 plainRecipe _ "$city" (Value.str "X") rfl rfl,
   C2_direct_reference_required_and_optional.2.1 optRecipe [] "$city" rfl rfl rfl
     [] "text" [],
   C2_direct_reference_required_and_optional.2.2.1 reqRecipe [] "$missing" rfl rfl rfl,
   C2_direct_reference_required_and_optional.2.2.2.1 reqState.skills reqRecipe []
     reqStep [chainStepB] skillOne (.requiredVarMissing "missing") rfl rfl⟩

/-- The regex consumes exactly up to the first closing brace: for a
brace-free, nonempty span the group match is deterministic. -/
theorem splitAtBrace_append (path rest : List Char) (h : '\x7d' ∉ path) :
    splitAtBrace (path ++ '\x7d' :: rest) = some (path, rest) := by
  induction path with
  | nil => simp [splitAtBrace]
  | cons c cs ih =>
    simp only [List.mem_cons, not_or] at h
    simp only [List.cons_append, splitAtBrace]
    rw [if_neg (fun hc => h.1 hc.symm), List.append_eq, ih h.2]

/-- A character other than `\x7b` is copied verbatim by the template
substitution; resolution of the remainder proceeds independently. -/
theorem substChars_cons_ne (ctx : List (String × Value)) (c : Char)
    (rest : List Char) (h : c ≠ '\x7b') :
    substChars ctx (c :: rest) =
      match substChars ctx rest with
      | .ok tail => .ok (c :: tail)
      | .error e => .error e := by
  rw [substChars.eq_def]
  split
  · rename_i heq
    exact absurd heq (by simp)
  · rename_i heq
    rw [List.cons_eq_cons] at heq
    exact absurd heq.1 h
  · rename_i c2 rest2 hno heq
    rw [List.cons_eq_cons] at heq
    obtain ⟨h1, h2⟩ := heq
    subst h1
    subst h2
    rfl

/-- An occurrence `\x7b$path\x7d` (nonempty brace-free `path`) at the head
of the input is replaced by the Python `str` of the dotted-path walk of the
`$`-stripped group, the rest of the string being resolved independently;
an error in the walk aborts the substitution. -/
theorem substChars_template (ctx : List (String × Value)) (path rest : List Char)
    (hne : path ≠ []) (hbr : '\x7d' ∉ path) :
    substChars ctx ('\x7b' :: '$' :: (path ++ '\x7d' :: rest)) =
      match walkPath ctx (pySplitDot (stripDollars (String.mk ('$' :: path)))) with
      | .error e => .error e
      | .ok v =>
        match substChars ctx rest with
        | .ok tail => .ok ((pyStr v).toList ++ tail)
        | .error e => .error e := by
  have hsplit := splitAtBrace_append path rest hbr
  rw [substChars.eq_def]
  split
  · rename_i heq
    exact absurd heq (by simp)
  · rename_i rest2 heq
    rw [List.cons_eq_cons] at heq
    obtain ⟨-, heq2⟩ := heq
    rw [List.cons_eq_cons] at heq2
    obtain ⟨-, heq3⟩ := heq2
    subst heq3
    split
    · rename_i sp after hb
      rw [hsplit] at hb
      injection hb with hb2
      rw [Prod.mk.injEq] at hb2
      obtain ⟨h1, h2⟩ := hb2
      subst h1
      subst h2
      rw [if_neg (by simpa [List.isEmpty_iff] using hne)]
    · rename_i hb
      rw [hsplit] at hb
      cases hb
  · rename_i x heq
    rw [List.cons_eq_cons] at heq
    exact (x _ heq.1.symm heq.2.symm).elim

/-- C3: each occurrence of `\x7b$path\x7d` in a step input string is
replaced by the string form of the value obtained by walking `path` as a
dot-separated key sequence starting at the execution context (nested
mapping lookup only); multiple templates resolve independently with the
surrounding literal text preserved; a missing intermediate key raises a
lookup error; and with context `{"user": {"name": "Ann"}}` the string
`"Hello \x7b$user.name\x7d!"` resolves to `"Hello Ann!"`. -/
theorem C3_embedded_template_resolution :
    (∀ (ctx : List (String × Value)) (path rest : List Char) (v : Value),
      path ≠ [] → '\x7d' ∉ path →
      walkPath ctx (pySplitDot (stripDollars (String.mk ('$' :: path)))) = .ok v →
      substChars ctx ('\x7b' :: '$' :: (path ++ '\x7d' :: rest)) =
        match substChars ctx rest with
        | .ok tail => .ok ((pyStr v).toList ++ tail)
        | .error e => .error e) ∧
    (∀ (ctx : List (String × Value)) (path rest : List Char) (e : ExecError),
      path ≠ [] → '\x7d' ∉ path →
      walkPath ctx (pySplitDot (stripDollars (String.mk ('$' :: path)))) = .error e →
      substChars ctx ('\x7b' :: '$' :: (path ++ '\x7d' :: rest)) = .error e) ∧
    (∀ (ctx : List (String × Value)) (c : Char) (rest : List Char),
      c ≠ '\x7b' →
      substChars ctx (c :: rest) =
        match substChars ctx rest with
        | .ok tail => .ok (c :: tail)
        | .error e => .error e) ∧
    substTemplates [("user", .dict [("name", .str "Ann")])]
        "Hello \x7b$user.name\x7d!" = .ok "Hello Ann!" ∧
    substTemplates [("user", .dict [("name", .str "Ann")])]
        "\x7b$user.name\x7d+\x7b$user.name\x7d" = .ok "Ann+Ann" ∧
    substTemplates [("user", .dict [("name", .str "Ann")])]
        "Hi \x7b$user.city\x7d" = .error (.lookupKeyMissing "city") := by
  refine ⟨?_, ?_, substChars_cons_ne, ?_, ?_, ?_⟩
  · intro ctx path rest v hne hbr hwalk
    rw [substChars_template ctx path rest hne hbr, hwalk]
  · intro ctx path rest e hne hbr hwalk
    rw [substChars_template ctx path rest hne hbr, hwalk]
  · simp [substTemplates, substChars, splitAtBrace, pySplitDot, splitOnChar,
      stripDollars, walkPath, walkSteps, indexValue, lookupA, pyStr]
  · simp [substTemplates, substChars, splitAtBrace, pySplitDot, splitOnChar,
      stripDollars, walkPath, walkSteps, indexValue, lookupA, pyStr]
  · simp [substTemplates, substChars, splitAtBrace, pySplitDot, splitOnChar,
      stripDollars, walkPath, walkSteps, indexValue, lookupA, pyStr]

theorem C3_witness :
    (substChars [("user", Value.dict [("name", Value.str "Ann")])]
        ('\x7b' :: '$' :: ("user.name".toList ++ '\x7d' :: "!".toList)) =
      match substChars [("user", Value.dict [("name", Value.str "Ann")])] "!".toList with
      | .ok tail => .ok ((pyStr (Value.str "Ann")).toList ++ tail)
      | .error e => .error e) ∧
    (substChars [("user", Value.dict [("name", Value.str "Ann")])]
        ('\x7b' :: '$' :: ("user.city".toList ++ '\x7d' :: [])) =
      .error (.lookupKeyMissing "city")) ∧
    (substChars [("user", Value.dict [("name", Value.str "Ann")])] ('H' :: "i".toList) =
      match substChars [("user", Value.dict [("name", Value.str "Ann")])] "i".toList with
      | .ok tail => .ok ('H' :: tail)
      | .error e => .error e) :=
  ⟨C3_embedded_template_resolution.1 _ "user.name".toList "!".toList
      (Value.str "Ann") (by decide) (by decide) rfl,
   C3_embedded_template_resolution.2.1 _ "user.city".toList [] (.lookupKeyMissing "city")
      (by decide) (by decide) rfl,
   C3_embedded_template_resolution.2.2.1 _ 'H' "i".toList (by decide)⟩

/-- The in-place step mutation of line 366 only ever touches the
`output_type` annotation: erasing annotations recovers the original step
list, whether the flow loop completed or aborted. -/
theorem runFlow_steps_eraseOut (skills : List (String × Skill)) (r : Recipe) :
    ∀ (steps : List Step) (ctx : List (String × Value)),
      ((runFlow skills r ctx steps).steps).map Step.eraseOut =
        steps.map Step.eraseOut := by
  intro steps
  induction steps with
  | nil => intro ctx; simp [runFlow]
  | cons step rest ih =>
    intro ctx
    cases hsk : lookupA skills step.skill with
    | none => simp [runFlow, hsk]
    | some sk =>
      cases hin : buildInput r ctx sk step.input with
      | error e => simp [runFlow, hsk, hin]
      | ok ip =>
        cases hrh : sk.returnHint with
        | none => simp [runFlow, hsk, hin, hrh, Step.eraseOut, ih]
        | some hh => simp [runFlow, hsk, hin, hrh, Step.eraseOut, ih]

/-- Corollary: the flow loop never changes the output keys of the stored
step list. -/
theorem runFlow_steps_output (skills : List (String × Skill)) (r : Recipe)
    (steps : List Step) (ctx : List (String × Value)) :
    ((runFlow skills r ctx steps).steps).map Step.output =
      steps.map Step.output := by
  have h := congrArg (List.map Step.output) (runFlow_steps_eraseOut skills r steps ctx)
  simpa [List.map_map, Function.comp, Step.eraseOut] using h

/-- C5: when a recipe execution completes without error, the caller-visible
result is exactly the value stored in the execution context under the
output key of the last flow step; in the two-step chain demo, the result is
step 2's skill result (which consumed `$a`), never step 1's. -/
theorem C5_result_is_last_step_output :
    (∀ (st : OrakleState) (n : String) (p : List (String × Value)) (v : Value),
      (executeRecipe st n p).result = .ok v →
      ∃ r ls, lookupA st.recipes n = some r ∧ r.flow.getLast? = some ls ∧
        lookupA (executeRecipe st n p).context ls.output = some v) ∧
    (executeRecipe chainState "/chain" []).result =
      .ok (.list [.str "two", .dict [("x", .str "one")]]) ∧
    Value.list [.str "two", .dict [("x", .str "one")]] ≠ Value.str "one" := by
  refine ⟨?_, rfl, fun h => Value.noConfusion h⟩
  intro st n p v h
  cases hrec : lookupA st.recipes n with
  | none => simp [executeRecipe, hrec] at h
  | some r =>
    refine ⟨r, ?_⟩
    simp only [executeRecipe, hrec] at h ⊢
    cases hres : (runFlow st.skills r (seedContext r p) r.flow).res with
    | error e => simp [hres] at h
    | ok u =>
      simp only [hres] at h ⊢
      cases hlast : ((runFlow st.skills r (seedContext r p) r.flow).steps).getLast? with
      | none => simp [hlast] at h
      | some lastStep =>
        simp only [hlast] at h ⊢
        cases hctx : lookupA (runFlow st.skills r (seedContext r p) r.flow).ctx
            lastStep.output with
        | none => simp [hctx] at h
        | some w =>
          simp only [hctx] at h ⊢
          injection h with hw
          subst hw
          have houts :=
            runFlow_steps_output st.skills r r.flow (seedContext r p)
          have hlast2 :
              (((runFlow st.skills r (seedContext r p) r.flow).steps).map
                Step.output).getLast? = some lastStep.output := by
            rw [List.getLast?_map, hlast]
            rfl
          rw [houts, List.getLast?_map] at hlast2
          obtain ⟨ls, hls, hlso⟩ := Option.map_eq_some'.mp hlast2
          refine ⟨ls, trivial, hls, ?_⟩
          rw [hlso, hctx]

theorem C5_witness :
    ∃ r ls, lookupA chainState.recipes "/chain" = some r ∧
      r.flow.getLast? = some ls ∧
      lookupA (executeRecipe chainState "/chain" []).context ls.output =
        some (Value.list [.str "two", .dict [("x", .str "one")]]) :=
  C5_result_is_last_step_output.1 chainState "/chain" []
    (Value.list [.str "two", .dict [("x", .str "one")]]) rfl

/-- Lines 350-356 always select the first parameter of the bound-method
signature, i.e. the first parameter of the `def` after the implicit
receiver: the `if param_name == "self"` branch re-reads the same entry. -/
theorem singleParamName_eq (sk : Skill) (rcv p : RunParam) (ps : List RunParam)
    (h : sk.runParams = rcv :: p :: ps) :
    singleParamName sk = some p.name := by
  simp only [singleParamName, boundParams, h, List.drop_succ_cons, List.drop_zero,
    List.head?_cons]
  split <;> rfl

/-- Step whose input specification is a single non-mapping expression. -/
def singleStep : Step := ⟨"SkillTwo", .single "inp", "out", none⟩

/-- C7: for a step whose input specification is a single non-mapping
expression, the expression is resolved once against the context and the
resulting value bound to the skill's sole parameter name — the first
parameter of the entry-point signature excluding the implicit receiver —
and the skill is invoked with exactly that one-entry parameter mapping. -/
theorem C7_single_expression_sole_parameter :
    (∀ (sk : Skill) (rcv p : RunParam) (ps : List RunParam),
      sk.runParams = rcv :: p :: ps →
      singleParamName sk = some p.name) ∧
    (∀ (recipe : Recipe) (ctx : List (String × Value)) (sk : Skill)
      (key : String) (v : Value) (rcv p : RunParam) (ps : List RunParam),
      sk.runParams = rcv :: p :: ps →
      lookupA ctx key = some v →
      buildInput recipe ctx sk (.single key) = .ok [(p.name, v)]) ∧
    (∀ (skills : List (String × Skill)) (recipe : Recipe)
      (ctx : List (String × Value)) (step : Step) (rest : List Step)
      (sk : Skill) (key : String) (v : Value) (rcv p : RunParam)
      (ps : List RunParam),
      step.input = .single key →
      lookupA skills step.skill = some sk →
      sk.runParams = rcv :: p :: ps →
      lookupA ctx key = some v →
      ∃ tail, (runFlow skills recipe ctx (step :: rest)).invoked =
        (step.skill, [(p.name, v)]) :: tail) := by
  have hbuild : ∀ (recipe : Recipe) (ctx : List (String × Value)) (sk : Skill)
      (key : String) (v : Value) (rcv p : RunParam) (ps : List RunParam),
      sk.runParams = rcv :: p :: ps →
      lookupA ctx key = some v →
      buildInput recipe ctx sk (.single key) = .ok [(p.name, v)] := by
    intro recipe ctx sk key v rcv p ps h1 h2
    simp [buildInput, singleParamName_eq sk rcv p ps h1, h2]
  refine ⟨singleParamName_eq, hbuild, ?_⟩
  intro skills recipe ctx step rest sk key v rcv p ps hin hsk h1 h2
  have hb := hbuild recipe ctx sk key v rcv p ps h1 h2
  refine ⟨(runFlow skills recipe
    (insertA ctx step.output (sk.run [(p.name, v)])) rest).invoked, ?_⟩
  simp [runFlow, hsk, hin, hb]

theorem C7_witness :
    (singleParamName skillTwo = some "x") ∧
    (buildInput plainRecipe [("inp", Value.int 7)] skillTwo (.single "inp") =
      .ok [("x", Value.int 7)]) ∧
    ∃ tail, (runFlow chainState.skills plainRecipe [("inp", Value.int 7)]
        [singleStep]).invoked = ("SkillTwo", [("x", Value.int 7)]) :: tail :=
  ⟨C7_single_expression_sole_parameter.1 skillTwo ⟨"self", none, none⟩
      ⟨"x", none, none⟩ [] rfl,
   C7_single_expression_sole_parameter.2.1 plainRecipe _ skillTwo "inp"
      (Value.int 7) ⟨"self", none, none⟩ ⟨"x", none, none⟩ [] rfl rfl,
   C7_single_expression_sole_parameter.2.2 chainState.skills plainRecipe _
      singleStep [] skillTwo "inp" (Value.int 7) ⟨"self", none, none⟩
      ⟨"x", none, none⟩ [] rfl rfl rfl rfl⟩

/-- The recipes/routes built by one loading iteration depend only on the
recipes/routes of the accumulator, never on its error log. -/
theorem loadRecipeFile_components (skills : List (String × Skill))
    (acc acc' : LoadResult) (f : RecipeFile)
    (hr : acc.recipes = acc'.recipes) (ho : acc.routes = acc'.routes) :
    (loadRecipeFile skills acc f).recipes = (loadRecipeFile skills acc' f).recipes ∧
    (loadRecipeFile skills acc f).routes = (loadRecipeFile skills acc' f).routes := by
  cases hp : f.parsed with
  | none => simp [loadRecipeFile, hp, hr, ho]
  | some r =>
    cases hm : (r.requiredSkills.filter (fun s => (lookupA skills s).isNone)).isEmpty <;>
      simp [loadRecipeFile, hp, hm, hr, ho]

/-- Fold-level version of `loadRecipeFile_components`. -/
theorem loadFold_components (skills : List (String × Skill)) :
    ∀ (files : List RecipeFile) (acc acc' : LoadResult),
      acc.recipes = acc'.recipes → acc.routes = acc'.routes →
      (files.foldl (loadRecipeFile skills) acc).recipes =
        (files.foldl (loadRecipeFile skills) acc').recipes ∧
      (files.foldl (loadRecipeFile skills) acc).routes =
        (files.foldl (loadRecipeFile skills) acc').routes := by
  intro files
  induction files with
  | nil => intro acc acc' hr ho; exact ⟨hr, ho⟩
  | cons f fs ih =>
    intro acc acc' hr ho
    have h := loadRecipeFile_components skills acc acc' f hr ho
    exact ih (loadRecipeFile skills acc f) (loadRecipeFile skills acc' f) h.1 h.2

/-- C4: a recipe definition whose declared required skills are all present
in the registry is registered — stored under its endpoint and given a
route; one with any missing required skill is rejected: nothing is added
to the registered set or the routes, and the missing skills are logged;
and loading of the other recipe files proceeds unaffected by the
rejection. -/
theorem C4_required_skills_validation :
    (∀ (skills : List (String × Skill)) (acc : LoadResult) (f : RecipeFile)
      (r : Recipe),
      f.parsed = some r →
      (∀ s ∈ r.requiredSkills, (lookupA skills s).isSome) →
      lookupA (loadRecipeFile skills acc f).recipes r.endpoint = some r ∧
      (loadRecipeFile skills acc f).routes =
        acc.routes ++ ["/recipes" ++ r.endpoint] ∧
      (loadRecipeFile skills acc f).missingLog = acc.missingLog) ∧
    (∀ (skills : List (String × Skill)) (acc : LoadResult) (f : RecipeFile)
      (r : Recipe),
      f.parsed = some r →
      (∃ s ∈ r.requiredSkills, lookupA skills s = none) →
      (loadRecipeFile skills acc f).recipes = acc.recipes ∧
      (loadRecipeFile skills acc f).routes = acc.routes ∧
      (loadRecipeFile skills acc f).missingLog =
        acc.missingLog ++
          [(f.fileName,
            r.requiredSkills.filter (fun s => (lookupA skills s).isNone))] ∧
      r.requiredSkills.filter (fun s => (lookupA skills s).isNone) ≠ []) ∧
    (∀ (skills : List (String × Skill)) (files1 files2 : List RecipeFile)
      (f : RecipeFile) (r : Recipe),
      f.parsed = some r →
      (∃ s ∈ r.requiredSkills, lookupA skills s = none) →
      (loadRecipes skills (files1 ++ f :: files2)).recipes =
        (loadRecipes skills (files1 ++ files2)).recipes ∧
      (loadRecipes skills (files1 ++ f :: files2)).routes =
        (loadRecipes skills (files1 ++ files2)).routes) := by
  have hrej : ∀ (skills : List (String × Skill)) (acc : LoadResult)
      (f : RecipeFile) (r : Recipe),
      f.parsed = some r →
      (∃ s ∈ r.requiredSkills, lookupA skills s = none) →
      (loadRecipeFile skills acc f).recipes = acc.recipes ∧
      (loadRecipeFile skills acc f).routes = acc.routes ∧
      (loadRecipeFile skills acc f).missingLog =
        acc.missingLog ++
          [(f.fileName,
            r.requiredSkills.filter (fun s => (lookupA skills s).isNone))] ∧
      r.requiredSkills.filter (fun s => (lookupA skills s).isNone) ≠ [] := by
    intro skills acc f r hp hex
    obtain ⟨s, hsmem, hsnone⟩ := hex
    have hmem : s ∈ r.requiredSkills.filter (fun x => (lookupA skills x).isNone) :=
      List.mem_filter.mpr ⟨hsmem, by simp [hsnone]⟩
    have hne := List.ne_nil_of_mem hmem
    have hm : (r.requiredSkills.filter (fun x => (lookupA skills x).isNone)).isEmpty
        = false := by
      cases hh : (r.requiredSkills.filter
          (fun x => (lookupA skills x).isNone)).isEmpty
      · rfl
      · exact absurd (List.isEmpty_iff.mp hh) hne
    refine ⟨?_, ?_, ?_, hne⟩ <;> simp [loadRecipeFile, hp, hm]
  refine ⟨?_, hrej, ?_⟩
  · intro skills acc f r hp hall
    have hm : (r.requiredSkills.filter (fun x => (lookupA skills x).isNone)).isEmpty
        = true := by
      rw [List.isEmpty_iff]
      rw [List.filter_eq_nil_iff]
      intro a ha
      simp [Option.isNone_iff_eq_none]
      exact Option.isSome_iff_ne_none.mp (hall a ha)
    refine ⟨?_, ?_, ?_⟩ <;>
      simp [loadRecipeFile, hp, hm, lookupA_insertA_self]
  · intro skills files1 files2 f r hp hex
    have hstep := hrej skills ((files1).foldl (loadRecipeFile skills) ⟨[], [], []⟩)
      f r hp hex
    unfold loadRecipes
    rw [List.foldl_append, List.foldl_append, List.foldl_cons]
    exact loadFold_components skills files2 _ _ hstep.1 hstep.2.1

/-- Recipe file whose required skill is registered. -/
def goodRecipeFile : RecipeFile :=
  ⟨"good.yaml", some ⟨"/g", none, none, ["SkillOne"], none, [chainStepA]⟩⟩

/-- Recipe file requiring a skill absent from the registry. -/
def badRecipeFile : RecipeFile :=
  ⟨"bad.yaml", some ⟨"/bad", none, none, ["NoSuchSkill"], none, [chainStepA]⟩⟩

theorem C4_witness :
    (lookupA (loadRecipeFile chainState.skills ⟨[], [], []⟩ goodRecipeFile).recipes
        "/g" = some ⟨"/g", none, none, ["SkillOne"], none, [chainStepA]⟩ ∧
      (loadRecipeFile chainState.skills ⟨[], [], []⟩ goodRecipeFile).routes =
        [] ++ ["/recipes/g"] ∧
      (loadRecipeFile chainState.skills ⟨[], [], []⟩ goodRecipeFile).missingLog = []) ∧
    ((loadRecipeFile chainState.skills ⟨[], [], []⟩ badRecipeFile).recipes = [] ∧
      (loadRecipeFile chainState.skills ⟨[], [], []⟩ badRecipeFile).routes = [] ∧
      (loadRecipeFile chainState.skills ⟨[], [], []⟩ badRecipeFile).missingLog =
        [] ++ [("bad.yaml", ["NoSuchSkill"])] ∧
      (["NoSuchSkill"] : List String) ≠ []) ∧
    ((loadRecipes chainState.skills ([goodRecipeFile] ++ badRecipeFile :: [])).recipes =
      (loadRecipes chainState.skills ([goodRecipeFile] ++ [])).recipes ∧
      (loadRecipes chainState.skills ([goodRecipeFile] ++ badRecipeFile :: [])).routes =
        (loadRecipes chainState.skills ([goodRecipeFile] ++ [])).routes) := by
  have hgood := C4_required_skills_validation.1 chainState.skills ⟨[], [], []⟩
    goodRecipeFile ⟨"/g", none, none, ["SkillOne"], none, [chainStepA]⟩ rfl
    (by intro s hs; simp only [List.mem_singleton] at hs; subst hs; rfl)
  have hbad := C4_required_skills_validation.2.1 chainState.skills ⟨[], [], []⟩
    badRecipeFile ⟨"/bad", none, none, ["NoSuchSkill"], none, [chainStepA]⟩ rfl
    ⟨"NoSuchSkill", List.mem_singleton.mpr rfl, rfl⟩
  have hcont := C4_required_skills_validation.2.2 chainState.skills
    [goodRecipeFile] [] badRecipeFile
    ⟨"/bad", none, none, ["NoSuchSkill"], none, [chainStepA]⟩ rfl
    ⟨"NoSuchSkill", List.mem_singleton.mpr rfl, rfl⟩
  exact ⟨hgood, hbad, hcont⟩

/-- Overwriting a stored recipe with one that differs only in step
annotations leaves the annotation-erased table unchanged. -/
theorem eraseOutTable_insertA (t : List (String × Recipe)) (k : String)
    (r r' : Recipe) (hl : lookupA t k = some r) (he : r'.eraseOut = r.eraseOut) :
    eraseOutTable (insertA t k r') = eraseOutTable t := by
  induction t with
  | nil => simp [lookupA] at hl
  | cons kv rest ih =>
    obtain ⟨k0, w0⟩ := kv
    by_cases hk : k0 = k
    · subst hk
      simp [lookupA] at hl
      subst hl
      simp [insertA, eraseOutTable, he]
    · simp only [lookupA, if_neg hk] at hl
      simp only [insertA, if_neg hk, eraseOutTable, List.map_cons]
      exact congrArg _ (by simpa [eraseOutTable] using ih hl)

/-- The state left behind by a recipe execution: the stored recipe's step
list replaced by its (possibly annotated) version, `self.skills`
untouched. -/
def annotatedState (st : OrakleState) (n : String) (p : List (String × Value))
    (r : Recipe) : OrakleState :=
  { st with
    recipes := insertA st.recipes n
      { r with flow := (runFlow st.skills r (seedContext r p) r.flow).steps } }

/-- The manager state after `execute_recipe`: unchanged when the recipe
name is unknown; otherwise the same state with the executed recipe's step
list replaced by its (possibly annotated) version — `self.skills` is never
written. -/
theorem executeRecipe_finalState (st : OrakleState) (n : String)
    (p : List (String × Value)) :
    (executeRecipe st n p).finalState =
      match lookupA st.recipes n with
      | none => st
      | some r => annotatedState st n p r := by
  cases hrec : lookupA st.recipes n with
  | none => simp [executeRecipe, hrec]
  | some r =>
    simp only [executeRecipe, hrec]
    cases hres : (runFlow st.skills r (seedContext r p) r.flow).res with
    | error e => simp [hres, annotatedState]
    | ok u =>
      cases hlast : ((runFlow st.skills r (seedContext r p) r.flow).steps).getLast? with
      | none => simp [hres, hlast, annotatedState]
      | some ls =>
        cases hctx : lookupA (runFlow st.skills r (seedContext r p) r.flow).ctx
            ls.output with
        | none => simp [hres, hlast, hctx, annotatedState]
        | some w => simp [hres, hlast, hctx, annotatedState]

/-- C1 (amended): recipe execution never writes to the skills table, and
its only write to the recipes table is the in-place `output_type`
annotation of executed steps: erasing annotations recovers the pre-call
table exactly, for every state, recipe name and payload. -/
theorem C1_amended_readonly_up_to_output_type :
    ∀ (st : OrakleState) (n : String) (p : List (String × Value)),
      (executeRecipe st n p).finalState.skills = st.skills ∧
      eraseOutTable (executeRecipe st n p).finalState.recipes =
        eraseOutTable st.recipes := by
  intro st n p
  rw [executeRecipe_finalState]
  cases hrec : lookupA st.recipes n with
  | none => exact ⟨rfl, rfl⟩
  | some r =>
    refine ⟨rfl, ?_⟩
    exact eraseOutTable_insertA st.recipes n r
      ({ r with flow := (runFlow st.skills r (seedContext r p) r.flow).steps }) hrec
      (by simp [Recipe.eraseOut, runFlow_steps_eraseOut])

/-- Annotation of the first step of the first stored recipe. -/
def firstRecipeAnn (t : List (String × Recipe)) : Option String :=
  match t with
  | (_, r) :: _ =>
      match r.flow with
      | s :: _ => s.outputType
      | [] => none
  | [] => none

/-- Annotation of the first flow step of the first recipe schema in a
capabilities listing. -/
def firstCapabilityAnn (c : Capabilities) : Option String :=
  match c.recipes with
  | (_, ri) :: _ =>
      match ri.flow with
      | s :: _ => s.outputType
      | [] => none
  | [] => none

/-- C1 counterexample: executing the chain recipe once mutates the stored
recipe table (step `a` of `/chain` acquires `output_type` from SkillOne's
return hint), so the capability-describe output before and after the
execution is not identical. -/
theorem C1_cex :
    (executeRecipe chainState "/chain" []).finalState.recipes ≠
        chainState.recipes ∧
    getCapabilities (executeRecipe chainState "/chain" []).finalState ≠
      getCapabilities chainState := by
  constructor
  · intro h
    exact absurd (congrArg firstRecipeAnn h) (by decide)
  · intro h
    exact absurd (congrArg firstCapabilityAnn h) (by decide)

/-- One skill-loading iteration preserves uniqueness of registry keys. -/
theorem loadSkillFile_keys_nodup (skills : List (String × Skill)) (f : PluginFile)
    (h : (skills.map Prod.fst).Nodup) :
    ((loadSkillFile skills f).map Prod.fst).Nodup := by
  unfold loadSkillFile
  split
  · exact h
  · cases hl : lookupA f.attrs (deriveClassName f.stem) with
    | none => simp [hl, h]
    | some sk => simp only [hl]; exact insertA_keys_nodup skills _ sk h

/-- Folding the skill loader preserves uniqueness of registry keys. -/
theorem loadSkills_fold_nodup :
    ∀ (files : List PluginFile) (skills : List (String × Skill)),
      (skills.map Prod.fst).Nodup →
      ((files.foldl loadSkillFile skills).map Prod.fst).Nodup := by
  intro files
  induction files with
  | nil => intro skills h; exact h
  | cons f fs ih =>
    intro skills h
    exact ih (loadSkillFile skills f) (loadSkillFile_keys_nodup skills f h)

/-- First demo plugin file: stem `a_b` derives class name `AB`. -/
def pluginA : PluginFile := ⟨"a_b", [("AB", skillOne)]⟩

/-- Second demo plugin file: stem `a__b` also derives class name `AB`
(Python's `"".join(w.title() for w in "a__b".split("_")) == "AB"`). -/
def pluginB : PluginFile := ⟨"a__b", [("AB", skillTwo)]⟩

/-- C6 counterexample: loading `pluginA` then `pluginB`, which derive the
same identifier `AB`, leaves the *second* instance in the registry — the
later load overrides the earlier one, refuting first-registration-wins. -/
theorem C6_cex :
    (lookupA (loadSkills [pluginA, pluginB]) "AB").map Skill.doc =
        some "second demo skill" ∧
    (lookupA (loadSkills [pluginA, pluginB]) "AB").map Skill.doc ≠
        some "first demo skill" := by
  exact ⟨rfl, by decide⟩

/-- C6 (amended): skill identifiers in the registry are unique, but when
two plugin loads derive the same identifier the last registration wins: a
later load overrides the earlier registered instance. -/
theorem C6_unique_ids_last_registration_wins :
    (∀ (files : List PluginFile), ((loadSkills files).map Prod.fst).Nodup) ∧
    (∀ (skills : List (String × Skill)) (f : PluginFile) (sk : Skill),
      startsWithUnderscores f.stem = false →
      lookupA f.attrs (deriveClassName f.stem) = some sk →
      lookupA (loadSkillFile skills f) (deriveClassName f.stem) = some sk) := by
  constructor
  · intro files
    exact loadSkills_fold_nodup files [] (by simp)
  · intro skills f sk h1 h2
    simp [loadSkillFile, h1, h2, lookupA_insertA_self]

theorem C6_witness :
    lookupA (loadSkillFile (loadSkillFile [] pluginA) pluginB)
        (deriveClassName "a__b") = some skillTwo :=
  C6_unique_ids_last_registration_wins.2 (loadSkillFile [] pluginA) pluginB
    skillTwo rfl rfl
